import Mathlib

/-!
Verification of the bkp repository (a small file-storage HTTP service) against
its natural-language specification.

The development shallowly embeds the two Python services:

* `src/server.py` — the Flask file-storage server: path resolution through
  werkzeug's `secure_filename`, the chunk store (`save_file_chunk`), the
  reassembler (`assemble_file_from_chunks`), metadata (`get_file_info`),
  listing (`list_files`, `list_directory`) and the upload route
  (`upload_file`).
* `src/ozima/api.py` — the FastAPI utility service: bearer-token check,
  `get_directory_size` and `copy_file`.

Filesystem state is modeled explicitly: directories are association lists of
named entries, byte strings are `List Nat`.  Operations are executable
functions returning explicit outcome types; Python exceptions become error
constructors carrying the filesystem state at the moment the exception
escaped (writes performed before the raise are preserved, as they are on a
real filesystem).
-/

/-- Byte strings (file and chunk payloads). -/
abbrev Bytes := List Nat

/-! Section: association-list primitives

A directory on disk is a finite map from names to contents; we represent it
as an association list.  `alookup` mirrors a lookup of one name, `aset`
mirrors creating-or-overwriting one entry (`open(path, 'wb')` / rewriting a
chunk file), `aremove` mirrors `os.remove` / `os.rmdir` of one entry. -/

/-- Look up the entry named `k`. -/
def alookup {κ α : Type} [BEq κ] (l : List (κ × α)) (k : κ) : Option α :=
  (l.find? (fun p => p.1 == k)).map (fun p => p.2)

/-- Create or overwrite the entry named `k` with value `v`. -/
def aset {κ α : Type} [BEq κ] (l : List (κ × α)) (k : κ) (v : α) : List (κ × α) :=
  l.filter (fun p => !(p.1 == k)) ++ [(k, v)]

/-- Remove the entry named `k` (no effect when absent). -/
def aremove {κ α : Type} [BEq κ] (l : List (κ × α)) (k : κ) : List (κ × α) :=
  l.filter (fun p => !(p.1 == k))

theorem find?_filter_of_imp {α : Type} (p q : α → Bool) (l : List α)
    (h : ∀ x, p x = true → q x = true) : (l.filter q).find? p = l.find? p := by
  induction l with
  | nil => rfl
  | cons a t ih =>
    by_cases hq : q a = true
    · simp only [List.filter_cons, hq, if_pos trivial]
      by_cases hp : p a = true
      · simp [List.find?, hp]
      · simp only [List.find?]
        rw [Bool.not_eq_true] at hp
        simp [hp, ih]
    · have hp : p a = false := by
        cases hpa : p a with
        | false => rfl
        | true => exact absurd (h a hpa) hq
      simp only [List.filter_cons]
      rw [Bool.not_eq_true] at hq
      simp [hq, List.find?, hp, ih]

theorem alookup_aset_self {κ α : Type} [BEq κ] [LawfulBEq κ]
    (l : List (κ × α)) (k : κ) (v : α) : alookup (aset l k v) k = some v := by
  unfold alookup aset
  rw [List.find?_append]
  have hnone : (l.filter (fun p => !(p.1 == k))).find? (fun p => p.1 == k) = none := by
    rw [List.find?_eq_none]
    intro x hx
    have := List.of_mem_filter hx
    simp only [Bool.not_eq_true'] at this
    simp [this]
  simp [hnone, List.find?]

theorem alookup_aset_ne {κ α : Type} [BEq κ] [LawfulBEq κ]
    (l : List (κ × α)) (k k' : κ) (v : α) (h : k' ≠ k) :
    alookup (aset l k v) k' = alookup l k' := by
  unfold alookup aset
  rw [List.find?_append]
  have h1 : (l.filter (fun p => !(p.1 == k))).find? (fun p => p.1 == k') =
      l.find? (fun p => p.1 == k') := by
    apply find?_filter_of_imp
    intro x hx
    have hx' : x.1 = k' := by simpa using hx
    simp [hx', h]
  have h2 : ([(k, v)].find? (fun p => p.1 == k')) = none := by
    have hkk : (k == k') = false := by
      simp only [beq_eq_false_iff_ne]
      exact Ne.symm h
    simp [List.find?, hkk]
  rw [h1, h2]
  cases l.find? (fun p => p.1 == k') <;> rfl

theorem alookup_aremove_self {κ α : Type} [BEq κ] [LawfulBEq κ]
    (l : List (κ × α)) (k : κ) : alookup (aremove l k) k = none := by
  unfold alookup aremove
  have hnone : (l.filter (fun p => !(p.1 == k))).find? (fun p => p.1 == k) = none := by
    rw [List.find?_eq_none]
    intro x hx
    have := List.of_mem_filter hx
    simp only [Bool.not_eq_true'] at this
    simp [this]
  simp [hnone]

/-! Section: werkzeug `secure_filename` (used by `FileStorageServer.get_file_path`,
`src/server.py` line 30)

The pipeline, restricted to ASCII (the NFKD-normalization step of the
original only rewrites non-ASCII characters before the ASCII projection
drops the leftovers, and the separator replacement and character strip both
run after it, so the safety-relevant shape of the output is unchanged):

1. drop non-ASCII characters (`filename.encode('ascii', 'ignore')`),
2. replace the path separator `/` by a space (`os.sep`; POSIX has no
   `altsep`),
3. split on whitespace and re-join with underscores
   (`'_'.join(filename.split())`),
4. delete every character outside `[A-Za-z0-9_.-]`
   (`_filename_ascii_strip_re.sub('', ...)`),
5. strip leading and trailing `.` and `_` (`.strip('._')`). -/

/-- Characters kept by werkzeug's `_filename_ascii_strip_re`. -/
def allowedChar (c : Char) : Bool :=
  ('A' ≤ c && c ≤ 'Z') || ('a' ≤ c && c ≤ 'z') || ('0' ≤ c && c ≤ '9') ||
    c == '_' || c == '.' || c == '-'

/-- ASCII whitespace, as recognized by Python's `str.split()`. -/
def isWSChar (c : Char) : Bool :=
  c == ' ' || c == '\t' || c == '\n' || c == '\r' || c == '\x0b' || c == '\x0c'

/-- Characters removed from both ends by `.strip('._')`. -/
def stripDotUnd (c : Char) : Bool :=
  c == '.' || c == '_'

/-- Python `str.split()`: split on whitespace runs, discarding empty pieces.
`acc` holds the current word, reversed. -/
def splitWSAux : List Char → List Char → List (List Char)
  | [], acc => if acc.isEmpty then [] else [acc.reverse]
  | c :: rest, acc =>
    if isWSChar c then
      if acc.isEmpty then splitWSAux rest [] else acc.reverse :: splitWSAux rest []
    else splitWSAux rest (c :: acc)

/-- Python `str.strip(chars)`: remove characters satisfying `p` from both
ends. -/
def stripEnds (p : Char → Bool) (l : List Char) : List Char :=
  ((l.dropWhile p).reverse.dropWhile p).reverse

/-- werkzeug `secure_filename`, on character lists. -/
def secure_filename_chars (l : List Char) : List Char :=
  let ascii := l.filter (fun c => c.toNat < 128)
  let sepRepl := ascii.map (fun c => if c = '/' then ' ' else c)
  let joined := List.intercalate ['_'] (splitWSAux sepRepl [])
  let cleaned := joined.filter allowedChar
  stripEnds stripDotUnd cleaned

/-- werkzeug `secure_filename`. -/
def secure_filename (s : String) : String :=
  ⟨secure_filename_chars s.data⟩

/-- Model of `os.path.join` for one relative component (posixpath: an absolute second
argument replaces the first; otherwise a `/` is inserted unless the first
part is empty or already ends in `/`). -/
def pathJoin (a b : String) : String :=
  if b.data.head? = some '/' then b
  else if a = "" ∨ a.data.getLast? = some '/' then a ++ b
  else a ++ "/" ++ b

/-- Method `FileStorageServer.get_file_path` (`src/server.py` lines 23-30):
join the sanitized filename to the storage root. -/
def get_file_path (storage_path : String) (filename : String) : String :=
  pathJoin storage_path (secure_filename filename)

/-- The path `p` stays inside the directory `root`: it is `root`, a
separator, and a single relative component that contains no separator and
is not the parent-directory segment. -/
def withinRoot (root p : String) : Prop :=
  ∃ s, p = root ++ "/" ++ s ∧ ('/' ∉ s.data) ∧ s ≠ ".."

theorem mem_stripEnds {p : Char → Bool} {l : List Char} {c : Char}
    (h : c ∈ stripEnds p l) : c ∈ l := by
  unfold stripEnds at h
  rw [List.mem_reverse] at h
  have h1 := (List.dropWhile_sublist (p := p)
    (l := (l.dropWhile p).reverse)).mem h
  rw [List.mem_reverse] at h1
  exact (List.dropWhile_sublist (p := p) (l := l)).mem h1

theorem secure_chars_allowed {l : List Char} {c : Char}
    (h : c ∈ secure_filename_chars l) : allowedChar c = true := by
  unfold secure_filename_chars at h
  exact List.of_mem_filter (mem_stripEnds h)

theorem dropWhile_head_false {p : Char → Bool} :
    ∀ {l c t}, List.dropWhile p l = c :: t → p c = false := by
  intro l
  induction l with
  | nil => intro c t h; simp [List.dropWhile] at h
  | cons a rest ih =>
    intro c t h
    rw [List.dropWhile_cons] at h
    by_cases ha : p a = true
    · rw [if_pos ha] at h; exact ih h
    · rw [Bool.not_eq_true] at ha
      rw [if_neg (by simp [ha])] at h
      cases h
      exact ha

theorem secure_filename_ne_dotdot (f : String) : secure_filename f ≠ ".." := by
  intro h
  have hd : secure_filename_chars f.data = ['.', '.'] := by
    have := congrArg String.data h
    simpa [secure_filename] using this
  unfold secure_filename_chars stripEnds at hd
  have hy :
      List.dropWhile stripDotUnd
        ((List.dropWhile stripDotUnd
          ((List.intercalate ['_'] (splitWSAux
            ((f.data.filter (fun c => c.toNat < 128)).map
              (fun c => if c = '/' then ' ' else c)) [])).filter allowedChar)).reverse)
        = ['.', '.'] := by
    have := congrArg List.reverse hd
    simpa using this
  have := dropWhile_head_false hy
  simp [stripDotUnd] at this

/-- C8: for every input filename, including ones with traversal segments,
the path produced by `get_file_path` lies within the storage root:
it is the root followed by a single sanitized component that contains no
path separator and is not `..`.  (The root itself must be a normal
directory name: nonempty and without a trailing separator, as the default
`'storage'` is.) -/
theorem c8_get_file_path_within_root (root fname : String)
    (h1 : root ≠ "") (h2 : root.data.getLast? ≠ some '/') :
    withinRoot root (get_file_path root fname) := by
  refine ⟨secure_filename fname, ?_, ?_, secure_filename_ne_dotdot fname⟩
  · unfold get_file_path pathJoin
    have hnoslash : (secure_filename fname).data.head? ≠ some '/' := by
      cases hs : (secure_filename fname).data with
      | nil => simp [hs]
      | cons c t =>
        intro hcon
        have hc : c = '/' := by simpa using hcon
        have hmem : c ∈ secure_filename_chars fname.data := by
          have : c ∈ (secure_filename fname).data := by rw [hs]; exact List.mem_cons_self c t
          simpa [secure_filename] using this
        have := secure_chars_allowed hmem
        rw [hc] at this
        simp [allowedChar] at this
    rw [if_neg hnoslash, if_neg (by push_neg; exact ⟨h1, h2⟩)]
  · intro hmem
    have := secure_chars_allowed (by simpa [secure_filename] using hmem)
    simp [allowedChar] at this

/-- Witness for C8 at a concrete traversal attempt. -/
theorem c8_witness :
    withinRoot "storage" (get_file_path "storage" "../../etc/passwd") :=
  c8_get_file_path_within_root "storage" "../../etc/passwd"
    (by decide) (by decide)

/-! Section: state of the Flask file-storage server (`src/server.py`)

The storage root contains regular files, subdirectories created through
`create_directory`, and the reserved `temp` area `storage/temp/<file_id>/`
holding chunk files `chunk_<n>`.  `save_file_chunk` is the only writer into
the temp area, so a per-upload temporary directory is faithfully a finite
map from integer chunk indices (the route passes `int(form['chunk_number'])`,
which may be any integer) to payloads.  `tempRoot` records whether the
directory `storage/temp` itself exists — it is created by the first
`os.makedirs` in `save_file_chunk` and never removed (`os.rmdir` only
deletes `storage/temp/<file_id>`). -/

/-- Contents and modification time of one regular file. -/
structure FileData where
  content : Bytes
  mtime : Nat
deriving DecidableEq, Repr

/-- An entry of a subdirectory of the storage root: a regular file or a
nested directory (nested directories are only listed by name). -/
inductive SubEntry where
  | fileE (fd : FileData)
  | dirE
deriving DecidableEq, Repr

/-- The on-disk state managed by `FileStorageServer`. -/
structure SState where
  files : List (String × FileData)
  subdirs : List (String × List (String × SubEntry))
  temp : List (String × List (Int × Bytes))
  tempRoot : Bool
deriving DecidableEq, Repr

/-- Method `FileStorageServer.save_file_chunk` (`src/server.py` lines 32-45):
ensure `storage/temp/<file_id>` exists, then write the payload to
`chunk_<chunk_number>`, overwriting any prior chunk at that index. -/
def save_file_chunk (st : SState) (file_id : String) (chunk_number : Int)
    (chunk_data : Bytes) : SState :=
  let dir := (alookup st.temp file_id).getD []
  { st with
    temp := aset st.temp file_id (aset dir chunk_number chunk_data)
    tempRoot := true }

/-- The sanitized destination name cannot be opened with `open(path, 'wb')`:
the name is empty (the path is the storage root itself), or it names an
existing subdirectory, or it names the existing `temp` area — all raise
`IsADirectoryError`. -/
def destBlocked (st : SState) (key : String) : Bool :=
  key == "" || (alookup st.subdirs key).isSome || (key == "temp" && st.tempRoot)

/-- Result `metadata` of `get_file_info`: the dictionary
`{name, size, modified, md5}` (`src/server.py` lines 95-100). -/
structure Metadata where
  name : String
  size : Nat
  modified : Nat
  digest : String
deriving DecidableEq, Repr

/-- Outcome of `get_file_info`: `None` when the path does not exist, the
metadata dictionary for a regular file, or the `IsADirectoryError` raised
by `calculate_file_md5` when the path names a directory. -/
inductive InfoOut where
  | absent
  | info (m : Metadata)
  | errIsDir
deriving DecidableEq, Repr

/-- The sanitized name resolves to an existing directory under the root:
the root itself (empty name), a created subdirectory, or the temp area. -/
def isRootDirName (st : SState) (key : String) : Bool :=
  key == "" || (alookup st.subdirs key).isSome || (key == "temp" && st.tempRoot)

/-- Method `FileStorageServer.get_file_info` (`src/server.py` lines 86-101).  The
argument is re-resolved through `get_file_path`, i.e. looked up under the
storage root by its sanitized name; `md5b` is the digest function
(`calculate_file_md5`), kept abstract. -/
def get_file_info (md5b : Bytes → String) (st : SState) (filename : String) : InfoOut :=
  let key := secure_filename filename
  match alookup st.files key with
  | some fd => .info ⟨filename, fd.content.length, fd.mtime, md5b fd.content⟩
  | none => if isRootDirName st key then .errIsDir else .absent

/-- Model of `os.listdir(self.storage_path)`: names of all entries directly under the
root (order as stored; `os.listdir` promises no particular order). -/
def listdirRoot (st : SState) : List String :=
  st.files.map (fun p => p.1) ++ st.subdirs.map (fun p => p.1) ++
    (if st.tempRoot then ["temp"] else [])

/-- Model of `os.path.isfile` directly under the root. -/
def isRootFileName (st : SState) (name : String) : Bool :=
  (alookup st.files name).isSome

/-- Method `FileStorageServer.list_files` (`src/server.py` lines 116-127): the
dictionary mapping each regular-file name under the root to its
`get_file_info` result. -/
def list_files (md5b : Bytes → String) (st : SState) : List (String × InfoOut) :=
  (listdirRoot st).filterMap (fun name =>
    if isRootFileName st name then some (name, get_file_info md5b st name) else none)

/-- Outcome of `assemble_file_from_chunks`.  Error constructors carry the
filesystem state at the moment the exception escaped: the destination file
keeps whatever was written before the raise. -/
inductive AsmOut where
  | ok (st : SState) (path : String)
  | errIsADir (st : SState)
  | errMissing (i : Int) (st : SState)
  | errRmdir (st : SState)
deriving DecidableEq, Repr

/-- Whether reassembly succeeded. -/
def AsmOut.isOk : AsmOut → Bool
  | .ok _ _ => true
  | _ => false

/-- The filesystem state carried by an `AsmOut`. -/
def AsmOut.state : AsmOut → SState
  | .ok st _ => st
  | .errIsADir st => st
  | .errMissing _ st => st
  | .errRmdir st => st

/-- Python `range(1, total_chunks + 1)` over `Int`. -/
def chunkRange (total : Int) : List Int :=
  if total < 1 then [] else (List.range total.toNat).map (fun (k : Nat) => (k : Int) + 1)

/-- The concatenation loop of `assemble_file_from_chunks` (`src/server.py`
lines 59-63): append chunk payloads in ascending index order until a chunk
file fails to open; returns the bytes written to the destination and the
first missing index, if any. -/
def concatUntilMissing (look : Int → Option Bytes) : List Int → Bytes × Option Int
  | [] => ([], none)
  | i :: rest =>
    match look i with
    | none => ([], some i)
    | some b =>
      let r := concatUntilMissing look rest
      (b ++ r.1, r.2)

/-- The cleanup loop (`src/server.py` lines 66-68): `os.remove` each
`chunk_<i>` for `i` in `1..total`. -/
def removeChunks (dir : List (Int × Bytes)) (is : List Int) : List (Int × Bytes) :=
  is.foldl (fun acc i => acc.filter (fun p => !(p.1 == i))) dir

/-- Create or overwrite the root file named `key` (an `open(path, 'wb')`
write or werkzeug's `file.save`). -/
def setRootFile (st : SState) (key : String) (content : Bytes) (now : Nat) : SState :=
  { st with files := aset st.files key ⟨content, now⟩ }

/-- Method `FileStorageServer.assemble_file_from_chunks` (`src/server.py` lines
47-71).  Opens the destination (truncating), concatenates chunks
`1..total_chunks` in ascending order, then removes the chunk files and the
temporary directory.  A missing chunk raises `FileNotFoundError` after the
prefix has been written; a temp directory that is absent or still non-empty
makes `os.rmdir` raise after the destination was fully written. -/
def assemble_file_from_chunks (st : SState) (file_id filename : String)
    (total_chunks : Int) (now : Nat) (storage_path : String) : AsmOut :=
  let key := secure_filename filename
  if destBlocked st key then .errIsADir st
  else
    let dirContents := (alookup st.temp file_id).getD []
    let rd := concatUntilMissing (fun i => alookup dirContents i) (chunkRange total_chunks)
    match rd.2 with
    | some i => .errMissing i (setRootFile st key rd.1 now)
    | none =>
      let st1 := setRootFile st key rd.1 now
      match alookup st.temp file_id with
      | none => .errRmdir st1
      | some d =>
        let remaining := removeChunks d (chunkRange total_chunks)
        if remaining.isEmpty then
          .ok { st1 with temp := aremove st1.temp file_id } (pathJoin storage_path key)
        else
          .errRmdir { st1 with temp := aset st1.temp file_id remaining }

/-- The multipart form of a `POST /api/files/<filename>` request:
the `file` part (client-side filename and payload) and the optional
`chunk_number`, `total_chunks` and `file_id` fields. -/
structure UploadForm where
  filePart : Option (String × Bytes)
  chunk_number : Option Int
  total_chunks : Option Int
  file_id : Option String
deriving DecidableEq, Repr

/-- Outcome of the `upload_file` route (`src/server.py` lines 187-215).
`asmFailed` is the unhandled exception from `assemble_file_from_chunks`
(HTTP 500); `wholeSaveFailed` is the `IsADirectoryError` from
`file.save` on a blocked destination (HTTP 500). -/
inductive UploadOut where
  | noFilePart (st : SState)
  | noSelectedFile (st : SState)
  | chunkUploaded (n : Int) (st : SState)
  | completed (st : SState)
  | wholeSaved (st : SState)
  | asmFailed (a : AsmOut)
  | wholeSaveFailed (st : SState)
deriving DecidableEq, Repr

/-- The `upload_file` route (`src/server.py` lines 187-215).  The request is
treated as a chunk exactly when both `chunk_number` and `total_chunks` are
present; `file_id` defaults to the MD5 hex digest of the URL filename
(`md5s`, kept abstract).  A chunk whose number equals `total_chunks`
triggers reassembly. -/
def upload_file (md5s : String → String) (st : SState) (filename : String)
    (form : UploadForm) (now : Nat) (storage_path : String) : UploadOut :=
  match form.filePart with
  | none => .noFilePart st
  | some (clientName, payload) =>
    if clientName = "" then .noSelectedFile st
    else
      let file_id := form.file_id.getD (md5s filename)
      match form.chunk_number, form.total_chunks with
      | some cn, some tc =>
        let st1 := save_file_chunk st file_id cn payload
        if cn = tc then
          match assemble_file_from_chunks st1 file_id filename tc now storage_path with
          | .ok st2 _ => .completed st2
          | e => .asmFailed e
        else .chunkUploaded cn st1
      | _, _ =>
        let key := secure_filename filename
        if destBlocked st key then .wholeSaveFailed st
        else .wholeSaved (setRootFile st key payload now)

/-- Names of the regular-file items of a subdirectory listing. -/
def subFileNames (entries : List (String × SubEntry)) : List String :=
  entries.filterMap (fun e => match e.2 with | .fileE _ => some e.1 | .dirE => none)

/-- Names of the nested-directory items of a subdirectory listing. -/
def subDirNames (entries : List (String × SubEntry)) : List String :=
  entries.filterMap (fun e => match e.2 with | .dirE => some e.1 | _ => none)

/-- Outcome of `list_directory`: the not-found dictionary, the contents
dictionary, or the exception propagated out of a `get_file_info` call that
hit a directory (see `InfoOut.errIsDir`). -/
inductive DirListOut where
  | notFound
  | ok (fileInfos : List InfoOut) (dirNames : List String)
  | errInfo
deriving DecidableEq, Repr

/-- Method `FileStorageServer.list_directory` (`src/server.py` lines 142-161).
The directory to list is resolved through `get_file_path`, but each file
item is passed by bare name to `get_file_info`, which resolves it under the
storage root again. -/
def list_directory (md5b : Bytes → String) (st : SState) (dirname : String) : DirListOut :=
  let key := secure_filename dirname
  if key == "temp" && st.tempRoot then
    .ok [] (st.temp.map (fun p => p.1))
  else
    match alookup st.subdirs key with
    | none => .notFound
    | some entries =>
      let infos := (subFileNames entries).map (fun b => get_file_info md5b st b)
      if infos.any (fun o => o == InfoOut.errIsDir) then .errInfo
      else .ok infos (subDirNames entries)

/-- The chunk file `chunk_<i>` of upload `file_id`, as `assemble` reads it:
when the per-upload directory is absent every open fails, exactly as when
the individual chunk file is absent. -/
def chunkAt (st : SState) (file_id : String) (i : Int) : Option Bytes :=
  alookup ((alookup st.temp file_id).getD []) i

theorem mem_chunkRange (total i : Int) : i ∈ chunkRange total ↔ 1 ≤ i ∧ i ≤ total := by
  unfold chunkRange
  by_cases h : total < 1
  · rw [if_pos h]
    simp only [List.not_mem_nil, false_iff]
    omega
  · rw [if_neg h]
    constructor
    · intro hmem
      obtain ⟨k, hk, hkeq⟩ := List.mem_map.1 hmem
      rw [List.mem_range] at hk
      omega
    · rintro ⟨h1, h2⟩
      exact List.mem_map.2 ⟨(i - 1).toNat, List.mem_range.2 (by omega), by omega⟩

theorem concatUntilMissing_all (look : Int → Option Bytes) (f : Int → Bytes) :
    ∀ is : List Int, (∀ i ∈ is, look i = some (f i)) →
      concatUntilMissing look is = ((is.map f).flatten, none)
  | [], _ => by simp [concatUntilMissing]
  | i :: rest, h => by
    have hi : look i = some (f i) := h i (List.mem_cons_self i rest)
    have ih := concatUntilMissing_all look f rest
      (fun j hj => h j (List.mem_cons_of_mem i hj))
    simp [concatUntilMissing, hi, ih]

theorem concatUntilMissing_missing (look : Int → Option Bytes) :
    ∀ is : List Int, (∃ i ∈ is, look i = none) →
      ∃ j, (concatUntilMissing look is).2 = some j
  | [], h => absurd h (by simp)
  | i :: rest, h => by
    cases hi : look i with
    | none => exact ⟨i, by simp [concatUntilMissing, hi]⟩
    | some b =>
      have hrest : ∃ j ∈ rest, look j = none := by
        obtain ⟨j, hj, hjn⟩ := h
        rcases List.mem_cons.mp hj with rfl | hj'
        · rw [hi] at hjn; cases hjn
        · exact ⟨j, hj', hjn⟩
      obtain ⟨j, hj⟩ := concatUntilMissing_missing look rest hrest
      exact ⟨j, by simp [concatUntilMissing, hi, hj]⟩

theorem removeChunks_mem : ∀ (is : List Int) (d : List (Int × Bytes)) (p : Int × Bytes),
    p ∈ removeChunks d is ↔ p ∈ d ∧ p.1 ∉ is
  | [], d, p => by simp [removeChunks]
  | i :: rest, d, p => by
    have ih := removeChunks_mem rest (d.filter (fun q => !(q.1 == i))) p
    simp only [removeChunks, List.foldl_cons] at ih ⊢
    rw [ih]
    simp only [List.mem_filter, Bool.not_eq_true', beq_eq_false_iff_ne, List.mem_cons]
    constructor
    · rintro ⟨⟨hm, hne⟩, hnr⟩
      exact ⟨hm, by rintro (h | h) <;> [exact hne h; exact hnr h]⟩
    · rintro ⟨hm, hn⟩
      exact ⟨⟨hm, fun h => hn (Or.inl h)⟩, fun h => hn (Or.inr h)⟩

/-- C1 (amended): when the temporary area of `file_id` holds exactly the
chunks `1..total` (each present, and no other chunk file), and the
sanitized destination name is writable (nonempty, not an existing
directory), reassembly succeeds, the destination is byte-equal to the
concatenation of the chunk payloads in ascending index order, and neither
the chunk files nor the per-upload temporary directory remain. -/
theorem c1_assemble_exact_chunks (st : SState) (file_id fname : String) (total : Int)
    (payload : Int → Bytes) (now : Nat) (root : String) (d : List (Int × Bytes))
    (htotal : 1 ≤ total)
    (hd : alookup st.temp file_id = some d)
    (hkeys : ∀ p ∈ d, 1 ≤ p.1 ∧ p.1 ≤ total)
    (hall : ∀ i : Int, 1 ≤ i → i ≤ total → alookup d i = some (payload i))
    (hblock : destBlocked st (secure_filename fname) = false) :
    ∃ st', assemble_file_from_chunks st file_id fname total now root =
        AsmOut.ok st' (pathJoin root (secure_filename fname)) ∧
      alookup st'.files (secure_filename fname) =
        some ⟨((chunkRange total).map payload).flatten, now⟩ ∧
      alookup st'.temp file_id = none := by
  have hrange : ∀ i ∈ chunkRange total, alookup d i = some (payload i) := fun i hi =>
    hall i ((mem_chunkRange total i).1 hi).1 ((mem_chunkRange total i).1 hi).2
  have hconcat := concatUntilMissing_all (fun i => alookup d i) payload (chunkRange total) hrange
  have hrem : removeChunks d (chunkRange total) = [] := by
    rw [List.eq_nil_iff_forall_not_mem]
    intro p hp
    rw [removeChunks_mem] at hp
    exact hp.2 ((mem_chunkRange total p.1).2 (hkeys p hp.1))
  refine ⟨{ st with
      files := aset st.files (secure_filename fname)
        ⟨((chunkRange total).map payload).flatten, now⟩,
      temp := aremove st.temp file_id }, ?_, ?_, ?_⟩
  · unfold assemble_file_from_chunks
    simp only [hblock, hd, Bool.false_eq_true, if_false, Option.getD_some, hconcat,
      hrem, List.isEmpty_nil, if_true, setRootFile]
  · exact alookup_aset_self _ _ _
  · exact alookup_aremove_self _ _

/-- C1 counterexample: with `total_chunks = 1` and chunk 1 present (so all
of chunks `1..N` are present, as the claim requires) but an additional
chunk file `chunk_2` also present, reassembly does not succeed: `os.rmdir`
raises because the temporary directory is not empty, and the directory
(with `chunk_2` still inside) remains. -/
theorem c1_counterexample :
    (assemble_file_from_chunks ⟨[], [], [("u", [(1, [7]), (2, [8])])], true⟩
      "u" "f" 1 0 "storage").isOk = false ∧
    alookup (assemble_file_from_chunks ⟨[], [], [("u", [(1, [7]), (2, [8])])], true⟩
      "u" "f" 1 0 "storage").state.temp "u" = some [(2, [8])] := by
  decide

/-- Witness for C1 (amended) at a concrete two-chunk upload stored out of
order. -/
theorem c1_witness :
    ∃ st', assemble_file_from_chunks ⟨[], [], [("u", [(2, [9, 9]), (1, [7])])], true⟩
        "u" "data.bin" 2 5 "storage" =
      AsmOut.ok st' (pathJoin "storage" (secure_filename "data.bin")) ∧
      alookup st'.files (secure_filename "data.bin") =
        some ⟨((chunkRange 2).map (fun i => if i = 1 then [7] else [9, 9])).flatten, 5⟩ ∧
      alookup st'.temp "u" = none := by
  refine c1_assemble_exact_chunks ⟨[], [], [("u", [(2, [9, 9]), (1, [7])])], true⟩
    "u" "data.bin" 2 (fun i => if i = 1 then [7] else [9, 9]) 5 "storage"
    [(2, [9, 9]), (1, [7])] (by decide) (by decide) (by decide) ?_ (by decide)
  intro i h1 h2
  have : i = 1 ∨ i = 2 := by omega
  rcases this with rfl | rfl <;> decide

theorem aset_aset_same {κ α : Type} [BEq κ] [LawfulBEq κ]
    (l : List (κ × α)) (k : κ) (v v' : α) :
    aset (aset l k v) k v' = aset l k v' := by
  unfold aset
  rw [List.filter_append, List.filter_filter]
  simp

theorem save_file_chunk_overwrite (st : SState) (id : String) (n : Int) (b : Bytes) :
    save_file_chunk (save_file_chunk st id n b) id n b = save_file_chunk st id n b := by
  unfold save_file_chunk
  simp only [alookup_aset_self, Option.getD_some, aset_aset_same]

/-- C5: re-saving chunk `n` of upload `id` with identical bytes any number
of additional times yields a filesystem state identical to the one after
the first save — `save_file_chunk` overwrites the chunk file in place, so
the eventual reassembled file (a function of that state) is unchanged. -/
theorem c5_save_chunk_idempotent (st : SState) (id : String) (n : Int) (b : Bytes) :
    ∀ m : Nat, (fun s => save_file_chunk s id n b)^[m] (save_file_chunk st id n b) =
      save_file_chunk st id n b := by
  intro m
  induction m with
  | zero => rfl
  | succ m ih =>
    rw [Function.iterate_succ_apply', ih]
    exact save_file_chunk_overwrite st id n b

theorem destBlocked_save (st : SState) (id : String) (n : Int) (b : Bytes) (key : String)
    (h1 : key ≠ "") (h2 : alookup st.subdirs key = none) (h3 : key ≠ "temp") :
    destBlocked (save_file_chunk st id n b) key = false := by
  unfold destBlocked save_file_chunk
  simp [h1, h2, h3]

/-- C2: signaling completion (`chunk_number = total_chunks = N`) while some
chunk `k` with `1 ≤ k ≤ N-1` is absent from the upload's temporary area
makes the request fail with the missing-chunk error (`FileNotFoundError`
raised while opening `chunk_k`'s range, surfaced as HTTP 500), not with a
success response.  The sanitized destination name is assumed writable
(nonempty, not `temp`, no directory of that name), as for any upload that
could ever succeed. -/
theorem c2_gap_detected (md5s : String → String) (st : SState)
    (fname clientName id : String) (payload : Bytes) (total k : Int)
    (now : Nat) (root : String)
    (hclient : clientName ≠ "")
    (hk1 : 1 ≤ k) (hk2 : k ≤ total - 1)
    (habs : chunkAt st id k = none)
    (hb1 : secure_filename fname ≠ "")
    (hb2 : alookup st.subdirs (secure_filename fname) = none)
    (hb3 : secure_filename fname ≠ "temp") :
    ∃ i st', upload_file md5s st fname ⟨some (clientName, payload), some total, some total, some id⟩
        now root = UploadOut.asmFailed (AsmOut.errMissing i st') := by
  have hblock := destBlocked_save st id total payload (secure_filename fname) hb1 hb2 hb3
  set st1 := save_file_chunk st id total payload with hst1
  have hd1 : alookup st1.temp id = some (aset ((alookup st.temp id).getD []) total payload) := by
    rw [hst1]; unfold save_file_chunk; exact alookup_aset_self _ _ _
  have hmissing : alookup ((alookup st1.temp id).getD []) k = none := by
    rw [hd1, Option.getD_some, alookup_aset_ne _ _ _ _ (by omega : k ≠ total)]
    exact habs
  have hmem : k ∈ chunkRange total := (mem_chunkRange total k).2 ⟨hk1, by omega⟩
  obtain ⟨j, hj⟩ := concatUntilMissing_missing
    (fun i => alookup ((alookup st1.temp id).getD []) i) (chunkRange total)
    ⟨k, hmem, hmissing⟩
  refine ⟨j, setRootFile st1 (secure_filename fname)
      (concatUntilMissing (fun i => alookup ((alookup st1.temp id).getD []) i)
        (chunkRange total)).1 now, ?_⟩
  have hasm : assemble_file_from_chunks st1 id fname total now root =
      AsmOut.errMissing j (setRootFile st1 (secure_filename fname)
        (concatUntilMissing (fun i => alookup ((alookup st1.temp id).getD []) i)
          (chunkRange total)).1 now) := by
    unfold assemble_file_from_chunks
    simp only [hblock, Bool.false_eq_true, if_false]
    rw [hj]
  unfold upload_file
  simp only [Option.getD_some, if_neg hclient]
  rw [← hst1, if_pos trivial, hasm]

/-- Witness for C2 at a concrete completion request with chunk 1 missing. -/
theorem c2_witness :
    ∃ i st', upload_file (fun _ => "deadbeef") ⟨[], [], [], false⟩ "doc.txt"
        ⟨some ("doc.txt", [5]), some 2, some 2, some "u"⟩ 0 "storage" =
      UploadOut.asmFailed (AsmOut.errMissing i st') := by
  exact c2_gap_detected (fun _ => "deadbeef") ⟨[], [], [], false⟩ "doc.txt" "doc.txt" "u"
    [5] 2 1 0 "storage" (by decide) (by decide) (by decide) (by decide)
    (by decide) (by decide) (by decide)

theorem isRootFileName_exists {st : SState} {name : String}
    (h : isRootFileName st name = true) :
    ∃ fd, alookup st.files name = some fd := by
  unfold isRootFileName at h
  cases hl : alookup st.files name with
  | none => rw [hl] at h; cases h
  | some fd => exact ⟨fd, rfl⟩

theorem mem_of_alookup_some {κ α : Type} [BEq κ] [LawfulBEq κ]
    {l : List (κ × α)} {k : κ} {v : α} (h : alookup l k = some v) : (k, v) ∈ l := by
  unfold alookup at h
  cases hf : l.find? (fun p => p.1 == k) with
  | none => rw [hf] at h; cases h
  | some p =>
    rw [hf] at h
    have hmem := List.mem_of_find?_eq_some hf
    have hkey : p.1 = k := by
      have := List.find?_some hf
      simpa using this
    have hval : p.2 = v := by simpa using h
    have : p = (k, v) := by
      cases p
      simp only at hkey hval
      rw [hkey, hval]
    rw [← this]
    exact hmem

theorem list_files_save_frame (md5b : Bytes → String) (st : SState) (id : String)
    (n : Int) (b : Bytes)
    (hno : alookup st.files "temp" = none)
    (hsec : ∀ p ∈ st.files, secure_filename p.1 = p.1) :
    list_files md5b (save_file_chunk st id n b) = list_files md5b st := by
  have hg : ∀ name : String,
      (if isRootFileName (save_file_chunk st id n b) name
        then some (name, get_file_info md5b (save_file_chunk st id n b) name) else none) =
      (if isRootFileName st name then some (name, get_file_info md5b st name) else none) := by
    intro name
    have hiso : isRootFileName (save_file_chunk st id n b) name = isRootFileName st name := rfl
    cases hin : isRootFileName st name with
    | false => rw [hiso, hin]; rfl
    | true =>
      rw [hiso, hin]
      obtain ⟨fd, hfd⟩ := isRootFileName_exists hin
      have hpm := mem_of_alookup_some hfd
      have hsecn : secure_filename name = name := hsec (name, fd) hpm
      have hfd2 : alookup st.files (secure_filename name) = some fd := by rw [hsecn]; exact hfd
      simp only [if_true, get_file_info, save_file_chunk, hfd2]
  unfold list_files
  rw [funext hg]
  unfold listdirRoot
  have hfiles : (save_file_chunk st id n b).files = st.files := rfl
  have hsubs : (save_file_chunk st id n b).subdirs = st.subdirs := rfl
  have htr : (save_file_chunk st id n b).tempRoot = true := rfl
  rw [hfiles, hsubs, htr]
  rw [List.filterMap_append, List.filterMap_append, List.filterMap_append,
    List.filterMap_append]
  have htempnone :
      (if isRootFileName st "temp" then some ("temp", get_file_info md5b st "temp") else none) =
        none := by
    have h : isRootFileName st "temp" = false := by
      unfold isRootFileName
      rw [hno]
      rfl
    rw [h]
    rfl
  congr 1
  cases htrs : st.tempRoot
  · simp [List.filterMap, htempnone]
  · simp [List.filterMap, htempnone]

theorem list_files_saves_frame (md5b : Bytes → String) :
    ∀ (ops : List (String × Int × Bytes)) (st : SState),
      alookup st.files "temp" = none → (∀ p ∈ st.files, secure_filename p.1 = p.1) →
      list_files md5b (ops.foldl (fun s o => save_file_chunk s o.1 o.2.1 o.2.2) st) =
        list_files md5b st
  | [], _, _, _ => rfl
  | o :: rest, st, hno, hsec => by
    have hstep := list_files_save_frame md5b st o.1 o.2.1 o.2.2 hno hsec
    have hfiles : (save_file_chunk st o.1 o.2.1 o.2.2).files = st.files := rfl
    have ih := list_files_saves_frame md5b rest (save_file_chunk st o.1 o.2.1 o.2.2)
      (by rw [hfiles]; exact hno) (by rw [hfiles]; exact hsec)
    simp only [List.foldl_cons]
    rw [ih, hstep]

/-- C6: saving any sequence of chunks (no completion signal: only
`save_file_chunk` runs, never `assemble_file_from_chunks`) leaves the
`GET /api/files` listing exactly as it was; in particular a target filename
that was not listed before the chunk uploads is still not listed after
them.  The root must be in the state every API-created root leaves behind:
no regular file named `temp`, and every stored name a `secure_filename`
fixpoint. -/
theorem c6_chunks_not_listed (md5b : Bytes → String) (st : SState)
    (ops : List (String × Int × Bytes)) (target : String)
    (hno : alookup st.files "temp" = none)
    (hsec : ∀ p ∈ st.files, secure_filename p.1 = p.1) :
    list_files md5b (ops.foldl (fun s o => save_file_chunk s o.1 o.2.1 o.2.2) st) =
      list_files md5b st ∧
    (target ∉ (list_files md5b st).map (fun e => e.1) →
      target ∉ (list_files md5b
        (ops.foldl (fun s o => save_file_chunk s o.1 o.2.1 o.2.2) st)).map (fun e => e.1)) := by
  have hframe := list_files_saves_frame md5b ops st hno hsec
  exact ⟨hframe, fun h => by rw [hframe]; exact h⟩

/-- Witness for C6: one stored file `a`, one chunk saved for upload `u`;
the target `b` stays unlisted. -/
theorem c6_witness :
    list_files (fun _ => "d41d8") ([("u", (1 : Int), [9])].foldl
        (fun s o => save_file_chunk s o.1 o.2.1 o.2.2) ⟨[("a", ⟨[1], 0⟩)], [], [], false⟩) =
      list_files (fun _ => "d41d8") ⟨[("a", ⟨[1], 0⟩)], [], [], false⟩ ∧
    ("b" ∉ (list_files (fun _ => "d41d8") ⟨[("a", ⟨[1], 0⟩)], [], [], false⟩).map
        (fun e => e.1) →
      "b" ∉ (list_files (fun _ => "d41d8") ([("u", (1 : Int), [9])].foldl
        (fun s o => save_file_chunk s o.1 o.2.1 o.2.2)
          ⟨[("a", ⟨[1], 0⟩)], [], [], false⟩)).map (fun e => e.1)) := by
  refine c6_chunks_not_listed (fun _ => "d41d8") ⟨[("a", ⟨[1], 0⟩)], [], [], false⟩
    [("u", (1 : Int), [9])] "b" (by decide) ?_
  intro p hp
  have : p = ("a", (⟨[1], 0⟩ : FileData)) := by simpa using hp
  rw [this]
  decide

/-- C9: listing a subdirectory `d` resolves each contained file item by its
bare name through `get_file_info`, i.e. under the storage root — the
returned entry is the metadata of the root-level file of that (sanitized)
name when one exists and `None` otherwise, never the metadata of the file
actually sitting at `d/b`.  (Hypotheses: `d` names a subdirectory, and no
file item's name collides with a root-level directory, which would instead
raise `IsADirectoryError` inside `get_file_info`.) -/
theorem c9_list_directory_reads_root (md5b : Bytes → String) (st : SState)
    (dirname : String) (entries : List (String × SubEntry))
    (hsub : alookup st.subdirs (secure_filename dirname) = some entries)
    (hnt : (secure_filename dirname == "temp" && st.tempRoot) = false)
    (hnocol : ∀ b ∈ subFileNames entries, get_file_info md5b st b ≠ InfoOut.errIsDir) :
    list_directory md5b st dirname =
      DirListOut.ok ((subFileNames entries).map (fun b => get_file_info md5b st b))
        (subDirNames entries) ∧
    ∀ b ∈ subFileNames entries,
      get_file_info md5b st b =
        (match alookup st.files (secure_filename b) with
          | some fd => InfoOut.info ⟨b, fd.content.length, fd.mtime, md5b fd.content⟩
          | none => InfoOut.absent) := by
  constructor
  · unfold list_directory
    simp only [hnt, Bool.false_eq_true, if_false, hsub]
    have hany : ((subFileNames entries).map (fun b => get_file_info md5b st b)).any
        (fun o => o == InfoOut.errIsDir) = false := by
      rw [List.any_eq_false]
      intro o ho
      obtain ⟨b, hb, rfl⟩ := List.mem_map.1 ho
      simp only [beq_iff_eq]
      exact hnocol b hb
    rw [hany]
    rfl
  · intro b hb
    have h := hnocol b hb
    cases hlook : alookup st.files (secure_filename b) with
    | some fd => simp only [get_file_info, hlook]
    | none =>
      simp only [get_file_info, hlook] at h ⊢
      cases hdirn : isRootDirName st (secure_filename b) with
      | true => simp at h; rw [h] at hdirn; cases hdirn
      | false => rfl

/-- Witness for C9: the subdirectory `d` holds a 3-byte file `x` and a
1-byte file `y`; the listing reports the 2-byte root-level `x` and `None`
for `y`. -/
theorem c9_witness :
    list_directory (fun _ => "h") ⟨[("x", ⟨[1, 2], 5⟩)],
        [("d", [("x", SubEntry.fileE ⟨[9, 9, 9], 7⟩), ("y", SubEntry.fileE ⟨[1], 1⟩)])],
        [], false⟩ "d" =
      DirListOut.ok ((subFileNames [("x", SubEntry.fileE ⟨[9, 9, 9], 7⟩),
          ("y", SubEntry.fileE ⟨[1], 1⟩)]).map
        (fun b => get_file_info (fun _ => "h") ⟨[("x", ⟨[1, 2], 5⟩)],
          [("d", [("x", SubEntry.fileE ⟨[9, 9, 9], 7⟩), ("y", SubEntry.fileE ⟨[1], 1⟩)])],
          [], false⟩ b))
        (subDirNames [("x", SubEntry.fileE ⟨[9, 9, 9], 7⟩), ("y", SubEntry.fileE ⟨[1], 1⟩)]) ∧
    ∀ b ∈ subFileNames [("x", SubEntry.fileE ⟨[9, 9, 9], 7⟩), ("y", SubEntry.fileE ⟨[1], 1⟩)],
      get_file_info (fun _ => "h") ⟨[("x", ⟨[1, 2], 5⟩)],
          [("d", [("x", SubEntry.fileE ⟨[9, 9, 9], 7⟩), ("y", SubEntry.fileE ⟨[1], 1⟩)])],
          [], false⟩ b =
        (match alookup ([("x", (⟨[1, 2], 5⟩ : FileData))]) (secure_filename b) with
          | some fd => InfoOut.info ⟨b, fd.content.length, fd.mtime, (fun _ => "h") fd.content⟩
          | none => InfoOut.absent) := by
  refine c9_list_directory_reads_root (fun _ => "h") ⟨[("x", ⟨[1, 2], 5⟩)],
    [("d", [("x", SubEntry.fileE ⟨[9, 9, 9], 7⟩), ("y", SubEntry.fileE ⟨[1], 1⟩)])],
    [], false⟩ "d"
    [("x", SubEntry.fileE ⟨[9, 9, 9], 7⟩), ("y", SubEntry.fileE ⟨[1], 1⟩)]
    (by decide) (by decide) ?_
  intro b hb
  have : b = "x" ∨ b = "y" := by simpa [subFileNames] using hb
  rcases this with rfl | rfl <;> decide

/-- C10: a `POST /api/files/<filename>` request is a chunk upload only when
both `chunk_number` and `total_chunks` are present (`src/server.py` line
198); with exactly one of them supplied the route takes the whole-file
branch, writing the payload directly to the sanitized destination and
touching neither the temp area nor `file_id`. -/
theorem c10_one_field_is_whole_upload (md5s : String → String) (st : SState)
    (fname clientName : String) (payload : Bytes) (form : UploadForm)
    (now : Nat) (root : String)
    (hfile : form.filePart = some (clientName, payload))
    (hclient : clientName ≠ "")
    (hxor : form.chunk_number.isSome ≠ form.total_chunks.isSome)
    (hblock : destBlocked st (secure_filename fname) = false) :
    upload_file md5s st fname form now root =
      UploadOut.wholeSaved (setRootFile st (secure_filename fname) payload now) ∧
    (setRootFile st (secure_filename fname) payload now).temp = st.temp := by
  refine ⟨?_, rfl⟩
  obtain ⟨fp, cn, tc, fid⟩ := form
  simp only at hfile hxor
  subst hfile
  cases cn <;> cases tc
  · simp at hxor
  · unfold upload_file
    simp only [if_neg hclient, hblock, Bool.false_eq_true, if_false]
  · unfold upload_file
    simp only [if_neg hclient, hblock, Bool.false_eq_true, if_false]
  · simp at hxor

/-- Witness for C10: `chunk_number = 1` supplied without `total_chunks`. -/
theorem c10_witness :
    upload_file (fun _ => "beef") ⟨[], [], [], false⟩ "n.txt"
        ⟨some ("n.txt", [3, 4]), some 1, none, some "u"⟩ 2 "storage" =
      UploadOut.wholeSaved (setRootFile ⟨[], [], [], false⟩ (secure_filename "n.txt") [3, 4] 2) ∧
    (setRootFile ⟨[], [], [], false⟩ (secure_filename "n.txt") [3, 4] 2).temp =
      SState.temp ⟨[], [], [], false⟩ :=
  c10_one_field_is_whole_upload (fun _ => "beef") ⟨[], [], [], false⟩ "n.txt" "n.txt"
    [3, 4] ⟨some ("n.txt", [3, 4]), some 1, none, some "u"⟩ 2 "storage"
    (by decide) (by decide) (by decide) (by decide)

/-! Section: the FastAPI utility service (`src/ozima/api.py`)

Its filesystem is a flat map from absolute path strings to regular-file
contents plus a set of directory paths (inode aliasing through links is not
modeled; `os.path.samefile` becomes path equality).  The rotating request
log written by the logging middleware lives outside this filesystem: the
no-mutation statements below are about the data files the endpoints
operate on. -/

/-- Filesystem seen by the ozima service. -/
structure OzFS where
  files : List (String × Bytes)
  dirs : List String
deriving DecidableEq, Repr

/-- Model of `os.path.exists`. -/
def pexists (fs : OzFS) (p : String) : Bool :=
  (alookup fs.files p).isSome || fs.dirs.contains p

/-- Model of `os.path.basename`: the part after the last separator. -/
def basename (p : String) : String :=
  ⟨(p.data.reverse.takeWhile (fun c => !(c == '/'))).reverse⟩

/-- Model of `shutil.copy2`: `None` is a raised exception — `IsADirectoryError` for a
directory source, `FileNotFoundError` for a vanished source,
`shutil.SameFileError` when source and destination are the same file.  A
directory destination receives the copy under its own name inside it. -/
def copy2 (fs : OzFS) (src dst : String) : Option OzFS :=
  if fs.dirs.contains src then none
  else
    match alookup fs.files src with
    | none => none
    | some b =>
      let target := if fs.dirs.contains dst then pathJoin dst (basename src) else dst
      if target = src then none
      else some { fs with files := aset fs.files target b }

/-- The body of the `try` block of `copy_file` (`src/ozima/api.py` lines
87-105): the `Except.error` payload is the status code of the
`HTTPException` raised inside the block (404 source missing, 400
destination collision without overwrite, 500 for `shutil` errors). -/
def copy_file_inner (fs : OzFS) (source destination : String) (overwrite : Bool) :
    Except Nat OzFS :=
  if !(pexists fs source) then .error 404
  else if pexists fs destination && !overwrite then .error 400
  else
    match copy2 fs source destination with
    | some fs' => .ok fs'
    | none => .error 500

/-- The `copy_file` endpoint (`src/ozima/api.py` lines 80-108), as the
client observes it: `except Exception as e` catches every exception raised
in the `try` block — including the endpoint's own `HTTPException(404)` and
`HTTPException(400)`, since `HTTPException` derives from `Exception` — and
re-raises `HTTPException(500, str(e))`.  Result: HTTP status and resulting
filesystem. -/
def copy_file (fs : OzFS) (source destination : String) (overwrite : Bool) :
    Nat × OzFS :=
  match copy_file_inner fs source destination overwrite with
  | .ok fs' => (200, fs')
  | .error _ => (500, fs)

/-- Default of `settings.API_TOKEN` (`src/ozima/config.py` line 6). -/
def API_TOKEN : String := "100500300"

/-- A request to one of the two protected endpoints. -/
inductive OzReq where
  | dirSize (path : String)
  | copyFile (source destination : String) (overwrite : Bool)
deriving DecidableEq, Repr

/-- Status and authentication-challenge header of a response. -/
structure OzResp where
  status : Nat
  wwwAuthBearer : Bool
deriving DecidableEq, Repr

/-- Request dispatch for the protected endpoints.  `Header(...)` declares
the `Authorization` header required, so FastAPI rejects a request without
it during request validation with status 422, before any dependency runs;
with the header present, `verify_token` (`src/ozima/api.py` lines 37-44)
compares it against `Bearer <token>` and a mismatch raises
`HTTPException(401)` with `WWW-Authenticate: Bearer`, before the endpoint
body.  `get_directory_size` only walks the tree (the size computation is
modeled separately on `FSTree`); `copy_file` may mutate. -/
def handle (token : String) (auth : Option String) (req : OzReq) (fs : OzFS) :
    OzResp × OzFS :=
  match auth with
  | none => (⟨422, false⟩, fs)
  | some a =>
    if a = "Bearer " ++ token then
      match req with
      | .dirSize _ => (⟨200, false⟩, fs)
      | .copyFile s d ow =>
        let r := copy_file fs s d ow
        (⟨r.1, false⟩, r.2)
    else (⟨401, true⟩, fs)

/-- C3 counterexample: a request to a protected endpoint with the
`Authorization` header missing is rejected by FastAPI validation with
status 422 and no `WWW-Authenticate` header — not with the 401 the claim
requires — though it still performs no filesystem mutation. -/
theorem c3_counterexample :
    (handle API_TOKEN none (OzReq.copyFile "/a" "/b" false) ⟨[("/a", [1])], []⟩).1.status = 422 ∧
    (handle API_TOKEN none (OzReq.copyFile "/a" "/b" false)
      ⟨[("/a", [1])], []⟩).1.wwwAuthBearer = false ∧
    (handle API_TOKEN none (OzReq.copyFile "/a" "/b" false) ⟨[("/a", [1])], []⟩).2 =
      ⟨[("/a", [1])], []⟩ :=
  ⟨rfl, rfl, rfl⟩

/-- C3 (amended): a request with a present but incorrect `Authorization`
header receives 401 with `WWW-Authenticate: Bearer` and causes no
filesystem mutation; a request with the header missing is rejected by
request validation with 422 (no challenge header) and likewise causes no
mutation. -/
theorem c3_bad_token_rejected (token s : String) (req : OzReq) (fs : OzFS)
    (h : s ≠ "Bearer " ++ token) :
    handle token (some s) req fs = (⟨401, true⟩, fs) ∧
    handle token none req fs = (⟨422, false⟩, fs) := by
  constructor
  · simp only [handle]
    rw [if_neg h]
  · rfl

/-- Witness for C3 (amended) at a concrete wrong token. -/
theorem c3_witness :
    handle API_TOKEN (some "Bearer wrong") (OzReq.dirSize "/data") ⟨[("/f", [1])], ["/d"]⟩ =
      (⟨401, true⟩, ⟨[("/f", [1])], ["/d"]⟩) ∧
    handle API_TOKEN none (OzReq.dirSize "/data") ⟨[("/f", [1])], ["/d"]⟩ =
      (⟨422, false⟩, ⟨[("/f", [1])], ["/d"]⟩) :=
  c3_bad_token_rejected API_TOKEN "Bearer wrong" (OzReq.dirSize "/data")
    ⟨[("/f", [1])], ["/d"]⟩ (by decide)

/-- C4 (code bug): with source and destination both existing and
`overwrite=false`, the endpoint's own `HTTPException(400)` is swallowed by
the blanket `except Exception` and re-raised as HTTP 500 — the client sees
500, never the specified 400 — while the destination is indeed left
unchanged; with `overwrite=true` the copy succeeds (200) and the
destination's bytes equal the source's. -/
theorem c4_copy_file_divergence :
    copy_file ⟨[("/src", [1, 2]), ("/dst", [9])], []⟩ "/src" "/dst" false =
      (500, ⟨[("/src", [1, 2]), ("/dst", [9])], []⟩) ∧
    copy_file_inner ⟨[("/src", [1, 2]), ("/dst", [9])], []⟩ "/src" "/dst" false =
      Except.error 400 ∧
    (copy_file ⟨[("/src", [1, 2]), ("/dst", [9])], []⟩ "/src" "/dst" true).1 = 200 ∧
    alookup (copy_file ⟨[("/src", [1, 2]), ("/dst", [9])], []⟩ "/src" "/dst" true).2.files
      "/dst" = some [1, 2] :=
  ⟨rfl, rfl, rfl, rfl⟩

/-! Section: `get_directory_size` (`src/ozima/api.py` lines 60-77)

A directory tree: regular files carry their size, symbolic links carry the
size of their target (never added: a link to a file is skipped by the
`os.path.islink` test, a link to a directory is listed under `dirnames`
and not descended into, since `os.walk` defaults to `followlinks=False`). -/

mutual
inductive FSTree where
  | file (size : Nat) : FSTree
  | link (targetSize : Nat) : FSTree
  | dir (children : FSForest) : FSTree
inductive FSForest where
  | nilF : FSForest
  | consF (name : String) (t : FSTree) (rest : FSForest) : FSForest
end

/-! The double loop of the endpoint, structured along the `os.walk`
traversal: for each visited directory, `levelSum` adds `os.path.getsize`
of every entry of `filenames` that is not a link (directories are in
`dirnames`, links contribute nothing), and `walkChildrenSum` continues
into the subdirectories. -/

mutual
def walkSum : FSTree → Nat
  | .file _ => 0
  | .link _ => 0
  | .dir ch => levelSum ch + walkChildrenSum ch
def levelSum : FSForest → Nat
  | .nilF => 0
  | .consF _ t rest => (match t with | .file sz => sz | _ => 0) + levelSum rest
def walkChildrenSum : FSForest → Nat
  | .nilF => 0
  | .consF _ t rest => walkSum t + walkChildrenSum rest
end

/-- The `get_directory_size` endpoint's `total_size` for the tree rooted at
the queried path. -/
def get_directory_size (t : FSTree) : Nat := walkSum t

/-! Modelled from the spec: "recursively sums the sizes of all regular
files under `path`, excluding symbolic links". -/

mutual
def specRegularSize : FSTree → Nat
  | .file sz => sz
  | .link _ => 0
  | .dir ch => specRegularSizeF ch
def specRegularSizeF : FSForest → Nat
  | .nilF => 0
  | .consF _ t rest => specRegularSize t + specRegularSizeF rest
end

/-- What a node contributes to the walk of its parent's subtree. -/
def subTreeContribution : FSTree → Nat
  | .file _ => 0
  | .link _ => 0
  | .dir ch => specRegularSizeF ch

mutual
theorem walkSum_eq_sub : ∀ t : FSTree, walkSum t = subTreeContribution t
  | .file sz => by simp [walkSum, subTreeContribution]
  | .link n => by simp [walkSum, subTreeContribution]
  | .dir ch => by
    have h := forestSum_eq ch
    simp only [walkSum, subTreeContribution]
    exact h
theorem forestSum_eq : ∀ ch : FSForest, levelSum ch + walkChildrenSum ch = specRegularSizeF ch
  | .nilF => by simp [levelSum, walkChildrenSum, specRegularSizeF]
  | .consF nm t rest => by
    have ht := walkSum_eq_sub t
    have hr := forestSum_eq rest
    simp only [levelSum, walkChildrenSum, specRegularSizeF]
    cases t with
    | file sz => simp only [specRegularSize, subTreeContribution, walkSum] at *; omega
    | link n => simp only [specRegularSize, subTreeContribution, walkSum] at *; omega
    | dir ch' => simp only [specRegularSize, subTreeContribution, walkSum] at *; omega
end

/-- C7: `get_directory_size` on a directory equals the recursive sum of the
sizes of all regular files beneath it with symbolic links excluded; in
particular a directory holding files of 10, 20 and 30 bytes plus a
symbolic link to a 100-byte file reports 60 bytes. -/
theorem c7_directory_size_regular_files :
    (∀ ch : FSForest, get_directory_size (FSTree.dir ch) = specRegularSizeF ch) ∧
    get_directory_size (FSTree.dir (.consF "a" (.file 10) (.consF "b" (.file 20)
      (.consF "c" (.file 30) (.consF "lnk" (.link 100) .nilF))))) = 60 := by
  constructor
  · intro ch
    show walkSum (FSTree.dir ch) = specRegularSizeF ch
    rw [walkSum]
    exact forestSum_eq ch
  · simp [get_directory_size, walkSum, levelSum, walkChildrenSum]
